import Mathlib

/-!
Shallow embedding of `src/hybrid_nlg/mcts.py` (classes `CounterNode`,
`RessourceDistributor`, `EvalBuffer`, `MCTS`) and proofs about the claims of
the specification.

Modelling conventions:
- `GrammarNode` objects (external domain nodes) are identified by natural
  numbers; the external capability interface is a structure of functions
  (`GrammarTree`).
- `CounterNode` objects live in an id-indexed store (`Store`, a list used as
  an arena); object identity is the index, `parent` and `_children` hold ids.
  New nodes are appended, so a node's id is larger than its parent's.
- Python floats (rewards, scores, quotas) are modelled as exact rationals;
  the literal `1.2` becomes `6/5`.
- A Python `assert` failure, `AttributeError`, `ValueError` (from `max` on an
  empty sequence) or a diverging loop is modelled by `Option`: `none` means
  the call raises / does not return normally.
- The external scorer is a function `List String → List ℚ`; the buffer state
  additionally logs the argument of every scorer invocation in `calls` so
  that claims about the number of scorer calls are statable.
-/

namespace Mcts

/-- One counter node of the search tree, mirroring the fields set in
`CounterNode.__init__`.  `children_` models `_children` (which is `None`
until `expand` assigns a list), `is_terminal_` models `_is_terminal`. -/
structure CounterNode where
  reference_node : Nat
  children_ : Option (List Nat)
  parent : Option Nat
  is_terminal_ : Bool
  count : Nat
  sum_rewards : ℚ
  sum_of_square_rewards : ℚ
  top_reward : ℚ
  top_leaf_node : Option Nat
  freeze : Bool
  solved : Bool
deriving DecidableEq, Repr

/-- The constructor `CounterNode(reference_node, parent)`. -/
def mkCounterNode (reference_node : Nat) (parent : Option Nat) : CounterNode :=
  { reference_node := reference_node
    children_ := none
    parent := parent
    is_terminal_ := true
    count := 0
    sum_rewards := 0
    sum_of_square_rewards := 0
    top_reward := -1
    top_leaf_node := none
    freeze := false
    solved := false }

instance : Inhabited CounterNode := ⟨mkCounterNode 0 none⟩

/-- The arena of counter nodes; a node's id is its index. -/
abbrev Store := List CounterNode

/-- Read a node from the store (out-of-range reads give the default node,
which has no children; all engine-reachable reads are in range). -/
def getN (st : Store) (i : Nat) : CounterNode :=
  st.getD i default

/-- The list of child ids of node `i` (empty when the node is unexpanded). -/
def childIds (st : Store) (i : Nat) : List Nat :=
  (getN st i).children_.getD []

/-- The external domain-tree capability interface (`GrammarNode`). -/
structure GrammarTree where
  isTerminal : Nat → Bool
  childrenD : Nat → List Nat
  randomChild : Nat → Nat
  isDeadEnd : Nat → Bool
  render : Nat → String

/-- `CounterNode.expand`: asserts that the reference node is not terminal
(`none` = assertion failure), then creates one fresh child counter node per
domain child (appended at the end of the store) and clears `_is_terminal`.
Note that the source does not check whether the node was already expanded. -/
def expand (g : GrammarTree) (st : Store) (i : Nat) : Option Store :=
  let n := getN st i
  if g.isTerminal n.reference_node then none
  else
    let kids := g.childrenD n.reference_node
    let fresh := (List.range kids.length).map (· + st.length)
    let st1 := st ++ kids.map (fun r => mkCounterNode r (some i))
    some (st1.set i { n with children_ := some fresh, is_terminal_ := false })

/-- `CounterNode.children`: `assert self._children` is a Python truthiness
test, so both an unexpanded node (`None`) and an expanded node with an empty
child list fail the assertion (`none`). -/
def childrenOf (st : Store) (i : Nat) : Option (List Nat) :=
  match (getN st i).children_ with
  | none => none
  | some l => if l.isEmpty then none else some l

/-- `CounterNode.is_terminal`. -/
def is_terminal (st : Store) (i : Nat) : Bool :=
  (getN st i).is_terminal_

/-- `CounterNode.backpropagate`: update the reward statistics and recurse
into the parent, unless the node is frozen.  The parent chain of any
engine-built store is strictly decreasing, so the fuel `st.length` always
suffices there; exhausted fuel leaves the store unchanged. -/
def backpropagate : Nat → Store → Nat → ℚ → Nat → Store
  | 0, st, _, _, _ => st
  | fuel + 1, st, i, new_reward, leaf =>
    let n := getN st i
    if n.freeze then st
    else
      let n' := { n with
        sum_rewards := n.sum_rewards + new_reward
        sum_of_square_rewards := n.sum_of_square_rewards + new_reward ^ 2
        top_reward := if new_reward > n.top_reward then new_reward else n.top_reward
        top_leaf_node := if new_reward > n.top_reward then some leaf else n.top_leaf_node }
      let st1 := st.set i n'
      match n.parent with
      | some p => backpropagate fuel st1 p new_reward leaf
      | none => st1

/-- `CounterNode.set_as_solved`: mark the node solved; if the parent exists,
is not frozen and all brothers are solved, recurse into the parent.  The
`children()` call on the parent can raise (`none`). -/
def set_as_solved : Nat → Store → Nat → Option Store
  | 0, _, _ => none
  | fuel + 1, st, i =>
    let st1 := st.set i { getN st i with solved := true }
    match (getN st1 i).parent with
    | none => some st1
    | some p =>
      if (getN st1 p).freeze then some st1
      else
        match childrenOf st1 p with
        | none => none
        | some brothers =>
          if brothers.all (fun b => (getN st1 b).solved) then set_as_solved fuel st1 p
          else some st1

/-- The `RessourceDistributor` state.  `ressources_to_consume_at_current_depth`
is `none` when the attribute was never assigned in `__init__` (any strategy
tag other than `ALL_FROM_ROOT` and `UNIFORM`); reading it then raises
`AttributeError`. -/
structure RessourceDistributor where
  strategy : String
  ressources_to_consume : Nat
  ressources_to_consume_at_current_depth : Option ℚ
  current_depth : Nat
  ressources_already_consumed : Nat
  ressources_already_consumed_at_current_depth : Nat
deriving DecidableEq, Repr

namespace RessourceDistributor

/-- `RessourceDistributor.__init__`.  The external call
`tree_root.estimate_mean_depth(nb_samples=50)` is passed in as `meanDepth`.
The Python float literal `1.2` is modelled as the rational `6/5`. -/
def init (strategy : String) (meanDepth : ℚ) (ressources : Nat) : RessourceDistributor :=
  let s := if strategy = "" then "ALL_FROM_ROOT" else strategy
  let quota : Option ℚ :=
    if s = "ALL_FROM_ROOT" then some (ressources : ℚ)
    else if s = "UNIFORM" then some ((ressources : ℚ) / meanDepth * (6 / 5))
    else none
  { strategy := s
    ressources_to_consume := ressources
    ressources_to_consume_at_current_depth := quota
    current_depth := 1
    ressources_already_consumed := 0
    ressources_already_consumed_at_current_depth := 0 }

/-- `RessourceDistributor.set_new_position`. -/
def set_new_position (depth : Nat) (rd : RessourceDistributor) : RessourceDistributor :=
  { rd with current_depth := depth, ressources_already_consumed_at_current_depth := 0 }

/-- `RessourceDistributor.consume_one_unit`. -/
def consume_one_unit (rd : RessourceDistributor) : RessourceDistributor :=
  { rd with
    ressources_already_consumed := rd.ressources_already_consumed + 1
    ressources_already_consumed_at_current_depth :=
      rd.ressources_already_consumed_at_current_depth + 1 }

/-- `RessourceDistributor.still_has_ressources`. -/
def still_has_ressources (rd : RessourceDistributor) : Bool :=
  rd.ressources_already_consumed < rd.ressources_to_consume

/-- `RessourceDistributor.should_go_down_into_the_tree`; `none` models the
`AttributeError` raised when `ressources_to_consume_at_current_depth` was
never assigned. -/
def should_go_down_into_the_tree (rd : RessourceDistributor) : Option Bool :=
  if rd.strategy = "ALL_FROM_ROOT" then some false
  else
    match rd.ressources_to_consume_at_current_depth with
    | none => none
    | some q =>
      some (decide (q ≤ (rd.ressources_already_consumed_at_current_depth : ℚ)))

/-- `RessourceDistributor.reset`. -/
def reset (rd : RessourceDistributor) : RessourceDistributor :=
  { rd with
    current_depth := 1
    ressources_already_consumed := 0
    ressources_already_consumed_at_current_depth := 0 }

end RessourceDistributor

/-- One mutating call on a `RessourceDistributor`, used to quantify over
arbitrary call sequences. -/
inductive RDOp where
  | consume : RDOp
  | setpos : Nat → RDOp
deriving DecidableEq, Repr

/-- Apply one distributor operation. -/
def applyOp (rd : RessourceDistributor) : RDOp → RessourceDistributor
  | RDOp.consume => rd.consume_one_unit
  | RDOp.setpos d => rd.set_new_position d

/-- Apply a sequence of distributor operations. -/
def applyOps (ops : List RDOp) (rd : RessourceDistributor) : RessourceDistributor :=
  ops.foldl applyOp rd

/-- The `EvalBuffer` state.  `calls` is instrumentation recording the
argument of every `compute_score` invocation (the source holds the scorer
object itself; we carry the scorer as a function parameter instead). -/
structure EvalBuffer where
  buffer_size : Nat
  buffer : List (Nat × Nat)
  results : List (ℚ × Nat × Nat)
  best_sentence : String
  best_score : ℚ
  score_history : List ℚ
  calls : List (List String)
deriving DecidableEq, Repr

namespace EvalBuffer

/-- `EvalBuffer.__init__`. -/
def init (buffer_size : Nat) : EvalBuffer :=
  { buffer_size := buffer_size
    buffer := []
    results := []
    best_sentence := ""
    best_score := -1
    score_history := []
    calls := [] }

end EvalBuffer

/-- The body of the `for score, (leaf, frontier_counter_node) in
zip(scores, self.buffer)` loop of `EvalBuffer.force_eval`. -/
def fe_step (g : GrammarTree) (acc : EvalBuffer) (p : ℚ × Nat × Nat) : EvalBuffer :=
  { acc with
    results := acc.results ++ [(p.1, p.2.1, p.2.2)]
    best_score := if p.1 > acc.best_score then p.1 else acc.best_score
    best_sentence := if p.1 > acc.best_score then g.render p.2.1 else acc.best_sentence }

/-- `EvalBuffer.force_eval`: no-op on an empty buffer; otherwise one scorer
call on the rendered texts in buffer order, positional redistribution of the
scores, best-score tracking, and clearing of the buffer. -/
def force_eval (g : GrammarTree) (scorer : List String → List ℚ) (eb : EvalBuffer) :
    EvalBuffer :=
  if eb.buffer.isEmpty then eb
  else
    let texts := eb.buffer.map (fun p => g.render p.1)
    let scores := scorer texts
    let eb1 := { eb with
      score_history := eb.score_history ++ scores
      calls := eb.calls ++ [texts] }
    let eb2 := (scores.zip eb.buffer).foldl (fe_step g) eb1
    { eb2 with buffer := [] }

/-- `EvalBuffer.add`: dead-end leaves get reward `0` appended directly to
`results`; other leaves are buffered, and a full buffer triggers
`force_eval`. -/
def add (g : GrammarTree) (scorer : List String → List ℚ) (eb : EvalBuffer)
    (frontier_counter_node : Nat) (leaf : Nat) : EvalBuffer :=
  let eb1 :=
    if g.isDeadEnd leaf then
      { eb with results := eb.results ++ [((0 : ℚ), leaf, frontier_counter_node)] }
    else
      { eb with buffer := eb.buffer ++ [(leaf, frontier_counter_node)] }
  if eb1.buffer.length = eb1.buffer_size then force_eval g scorer eb1 else eb1

/-- `EvalBuffer.pop_results`. -/
def pop_results (eb : EvalBuffer) : List (ℚ × Nat × Nat) × EvalBuffer :=
  (eb.results, { eb with results := [] })

/-- Python's `max(xs, key=f)`: `none` on an empty sequence (`ValueError`),
otherwise the first element achieving the maximal key (later elements
replace the current best only on a strictly greater key). -/
def maxByKey {α β : Type} [LinearOrder β] (f : α → β) : List α → Option α
  | [] => none
  | x :: xs => some (xs.foldl (fun b y => if f y > f b then y else b) x)

/-- `MCTS.single_player_ucb` (Schadd et al. single-player UCB; the default
arguments are `c=1, d=100`). -/
noncomputable def single_player_ucb (child parent : CounterNode) (c d : ℝ) : ℝ :=
  (child.sum_rewards : ℝ) / (child.count : ℝ)
    + Real.sqrt (c * Real.log ((parent.count : ℝ) / (child.count : ℝ)))
    + Real.sqrt
        (((child.sum_of_square_rewards : ℝ)
            - (child.count : ℝ) * ((child.sum_rewards : ℝ) / (child.count : ℝ)) ^ 2 + d)
          / (child.count : ℝ))

/-- The UCB formula exactly as written in the specification:
`ucb(c) = mean(c) + sqrt(C * ln(count(p) / count(c)))
        + sqrt((sumSq(c) - count(c) * mean(c)^2 + D) / count(c))`
with `mean(c) = reward_sum(c) / count(c)`, `C=1`, `D=100`. -/
noncomputable def ucb_spec_formula (child parent : CounterNode) : ℝ :=
  let mean := (child.sum_rewards : ℝ) / (child.count : ℝ)
  mean + Real.sqrt (1 * Real.log ((parent.count : ℝ) / (child.count : ℝ)))
    + Real.sqrt
        (((child.sum_of_square_rewards : ℝ) - (child.count : ℝ) * mean ^ 2 + 100)
          / (child.count : ℝ))

/-- `MCTS.selection_policy`: a first never-visited child is returned
immediately; otherwise the unsolved child maximising the single-player UCB.
`none` models the `children()` assertion failure or `max` on an empty
sequence. -/
noncomputable def selection_policy (st : Store) (i : Nat) : Option Nat :=
  match childrenOf st i with
  | none => none
  | some l =>
    match l.find? (fun child => (getN st child).count == 0) with
    | some child => some child
    | none =>
      maxByKey (fun c => single_player_ucb (getN st c) (getN st i) 1 100)
        (l.filter (fun c => !(getN st c).solved))

/-- Increment a node's visit count (`node.count += 1`). -/
def incCount (st : Store) (i : Nat) : Store :=
  st.set i { getN st i with count := (getN st i).count + 1 }

/-- The loop of `MCTS.selection_phase`: increment the current node's count,
stop at the first node that is terminal for traversal, otherwise descend via
`selection_policy`.  The fuel bounds the path length (any engine-built path
has strictly increasing ids, so `st.length + 1` suffices). -/
noncomputable def selLoop : Nat → Store → Nat → Option (Store × Nat)
  | 0, _, _ => none
  | fuel + 1, st, i =>
    let st1 := incCount st i
    if (getN st1 i).is_terminal_ then some (st1, i)
    else
      match selection_policy st1 i with
      | some child => selLoop fuel st1 child
      | none => none

/-- `MCTS.selection_phase`. -/
noncomputable def selection_phase (fuel : Nat) (st : Store) (root : Nat) :
    Option (Store × Nat) :=
  selLoop fuel st root

/-- The simulation loop of `MCTS.single_search` (step 3): follow
`random_child` until a terminal domain node is reached; `none` models a
random walk that does not terminate within the fuel. -/
def simulate : Nat → GrammarTree → Nat → Option Nat
  | 0, _, _ => none
  | fuel + 1, g, n => if g.isTerminal n then some n else simulate fuel g (g.randomChild n)

/-- Backpropagate a list of `(reward, leaf, frontier_counter_node)` results
(the `for reward, leaf, frontier_counter_node in results` loops of
`MCTS.single_search`). -/
def backpropList (st : Store) (results : List (ℚ × Nat × Nat)) : Store :=
  results.foldl (fun st r => backpropagate st.length st r.2.2 r.1 r.2.1) st

/-- The state threaded through one run of `MCTS.single_search`.  The initial
counter root always has id `0`. -/
structure SearchState where
  store : Store
  rd : RessourceDistributor
  eb : EvalBuffer
  counter_root : Nat
  current_depth : Nat
deriving Repr

/-- The `while` condition of `MCTS.single_search`. -/
def loopGuard (g : GrammarTree) (s : SearchState) : Bool :=
  !g.isTerminal (getN s.store s.counter_root).reference_node
    && !(getN s.store s.counter_root).solved
    && s.rd.still_has_ressources

/-- One iteration of the `while` loop of `MCTS.single_search`: consume one
unit, selection, expansion (or `set_as_solved` on a terminal frontier),
simulation, buffered evaluation, backpropagation of any popped results, and
the root-advancement check. -/
noncomputable def loopIter (g : GrammarTree) (scorer : List String → List ℚ)
    (simFuel : Nat) (s : SearchState) : Option SearchState :=
  let rd1 := s.rd.consume_one_unit
  match selection_phase (s.store.length + 1) s.store s.counter_root with
  | none => none
  | some (st1, frontier) =>
    let expandStep : Option Store :=
      if g.isTerminal (getN st1 frontier).reference_node then
        set_as_solved st1.length st1 frontier
      else
        expand g st1 frontier
    match expandStep with
    | none => none
    | some st2 =>
      match simulate simFuel g (getN st2 frontier).reference_node with
      | none => none
      | some random_leaf =>
        let eb1 := add g scorer s.eb frontier random_leaf
        let popped := pop_results eb1
        let st3 := backpropList st2 popped.1
        match rd1.should_go_down_into_the_tree with
        | none => none
        | some false =>
          some { store := st3, rd := rd1, eb := popped.2
                 counter_root := s.counter_root, current_depth := s.current_depth }
        | some true =>
          let eb3 := force_eval g scorer popped.2
          let popped2 := pop_results eb3
          let st4 := backpropList st3 popped2.1
          let st5 := st4.set s.counter_root { getN st4 s.counter_root with freeze := true }
          match childrenOf st5 s.counter_root with
          | none => none
          | some l =>
            match maxByKey (fun child => (getN st5 child).top_reward) l with
            | none => none
            | some best =>
              some { store := st5, rd := rd1.set_new_position (s.current_depth + 1)
                     eb := popped2.2, counter_root := best
                     current_depth := s.current_depth + 1 }

/-- The `while` loop of `MCTS.single_search`.  Each iteration consumes one
resource unit, so `ressources_to_consume + 1` fuel always suffices when the
distributor starts with zero consumed units. -/
noncomputable def singleSearchLoop (g : GrammarTree) (scorer : List String → List ℚ)
    (simFuel : Nat) : Nat → SearchState → Option SearchState
  | 0, _ => none
  | fuel + 1, s =>
    if loopGuard g s then
      match loopIter g scorer simFuel s with
      | some s' => singleSearchLoop g scorer simFuel fuel s'
      | none => none
    else some s

/-- `MCTS.single_search`: wrap the domain root in a fresh counter root (id
`0`), run the search loop, then perform the final `force_eval` — and nothing
else — before returning. -/
noncomputable def single_search (g : GrammarTree) (scorer : List String → List ℚ)
    (simFuel : Nat) (rd : RessourceDistributor) (eb : EvalBuffer) (rootRef : Nat) :
    Option SearchState :=
  let s0 : SearchState :=
    { store := [mkCounterNode rootRef none], rd := rd, eb := eb
      counter_root := 0, current_depth := 1 }
  (singleSearchLoop g scorer simFuel (rd.ressources_to_consume + 1) s0).map
    (fun s => { s with eb := force_eval g scorer s.eb })

/-! ### Shape relations and invariant predicates -/

/-- `st'` has the same length and the same per-node `count` and `children_`
as `st` (the data the tree-shape invariants depend on). -/
def CCShape (st st' : Store) : Prop :=
  st'.length = st.length
  ∧ (∀ j, (getN st' j).count = (getN st j).count)
  ∧ (∀ j, (getN st' j).children_ = (getN st j).children_)

/-! ### Tree-shape invariants of engine-reachable stores -/

/-- Every parent has at least as many visits as each of its children. -/
def Inv (st : Store) : Prop :=
  ∀ i < st.length, ∀ c ∈ childIds st i, (getN st c).count ≤ (getN st i).count

/-- Every node is listed as a child of at most one parent. -/
def UniqueParent (st : Store) : Prop :=
  ∀ p < st.length, ∀ q < st.length, ∀ c ∈ childIds st p, c ∈ childIds st q → p = q

/-- Parents are created before their children, so ids increase downward. -/
def ParentBefore (st : Store) : Prop :=
  ∀ i < st.length, ∀ c ∈ childIds st i, i < c

/-- All child ids point into the store. -/
def ClosedIds (st : Store) : Prop :=
  ∀ i < st.length, ∀ c ∈ childIds st i, c < st.length

/-- The well-formedness the engine maintains on a search state under the
`ALL_FROM_ROOT` strategy: the four store invariants, plus the facts that the
logical root is a valid id that is nobody's child. -/
def GoodState (s : SearchState) : Prop :=
  Inv s.store ∧ UniqueParent s.store ∧ ParentBefore s.store ∧ ClosedIds s.store
    ∧ s.counter_root < s.store.length
    ∧ ∀ p < s.store.length, s.counter_root ∉ childIds s.store p

instance (st : Store) : Decidable (Inv st) := by
  unfold Inv
  infer_instance

instance (st : Store) : Decidable (UniqueParent st) := by
  unfold UniqueParent
  infer_instance

instance (st : Store) : Decidable (ParentBefore st) := by
  unfold ParentBefore
  infer_instance

instance (st : Store) : Decidable (ClosedIds st) := by
  unfold ClosedIds
  infer_instance

instance (s : SearchState) : Decidable (GoodState s) := by
  unfold GoodState
  infer_instance

/-- Every parent of `i` strictly dominates `i`'s count (the extra slack that
lets `i`'s count be incremented without breaking `Inv`).  Holds vacuously
for a node that is nobody's child, e.g. the initial root. -/
def StrictParents (st : Store) (i : Nat) : Prop :=
  ∀ p < st.length, i ∈ childIds st p → (getN st i).count + 1 ≤ (getN st p).count

/-! ### Concrete inputs used by the witnesses and counterexamples -/

instance : Inhabited RessourceDistributor :=
  ⟨{ strategy := "", ressources_to_consume := 0
     ressources_to_consume_at_current_depth := none, current_depth := 1
     ressources_already_consumed := 0, ressources_already_consumed_at_current_depth := 0 }⟩

instance : Inhabited EvalBuffer := ⟨EvalBuffer.init 0⟩

instance : Inhabited SearchState := ⟨{ store := [], rd := default, eb := default
                                       counter_root := 0, current_depth := 1 }⟩

def stC7 : Store :=
  [{ mkCounterNode 0 none with
      freeze := true
      count := 3
      sum_rewards := 7 }]

def childC9 : CounterNode :=
  { mkCounterNode 3 (some 0) with
      count := 2
      sum_rewards := 5
      sum_of_square_rewards := 13 }

def parentC9 : CounterNode :=
  { mkCounterNode 0 none with count := 4 }

def gC10 : GrammarTree :=
  { isTerminal := fun _ => false
    childrenD := fun _ => []
    randomChild := fun n => n
    isDeadEnd := fun _ => false
    render := fun _ => "" }

def stC10 : Store := [mkCounterNode 0 none]

def gC3 : GrammarTree :=
  { isTerminal := fun n => decide (n = 1)
    childrenD := fun n => if n = 0 then [1] else []
    randomChild := fun n => n
    isDeadEnd := fun _ => false
    render := fun _ => "" }

def stC3 : Store :=
  [{ mkCounterNode 0 none with
      children_ := some [1]
      is_terminal_ := false
      count := 1
      sum_rewards := 5 },
   { mkCounterNode 1 (some 0) with
      count := 1
      sum_rewards := 5 }]

def gC5 : GrammarTree :=
  { isTerminal := fun _ => true
    childrenD := fun _ => []
    randomChild := fun n => n
    isDeadEnd := fun _ => true
    render := fun _ => "x" }

def scorerC5 : List String → List ℚ := fun l => l.map (fun _ => (9 : ℚ))

def gC6 : GrammarTree :=
  { isTerminal := fun _ => true
    childrenD := fun _ => []
    randomChild := fun n => n
    isDeadEnd := fun _ => false
    render := fun n => Nat.repr n }

def scorerC6 : List String → List ℚ := fun l => l.map (fun t => (t.length : ℚ))

def ebC6 : EvalBuffer := { EvalBuffer.init 5 with buffer := [(1, 0), (22, 0)] }

def gC1 : GrammarTree :=
  { isTerminal := fun n => n != 0
    childrenD := fun n => if n = 0 then [1] else []
    randomChild := fun n => if n = 0 then 1 else n
    isDeadEnd := fun _ => false
    render := fun n => if n = 1 then "t" else "r" }

def scorerC1 : List String → List ℚ := fun l => l.map (fun _ => (5 : ℚ))

def rdC1 : RessourceDistributor := RessourceDistributor.init "ALL_FROM_ROOT" 1 1

def gC2 : GrammarTree :=
  { isTerminal := fun n => decide (2 ≤ n)
    childrenD := fun n => if n = 0 then [1] else if n = 1 then [2, 3] else []
    randomChild := fun n => if n = 0 then 1 else if n = 1 then 2 else n
    isDeadEnd := fun _ => false
    render := fun n => Nat.repr n }

def scorerC2 : List String → List ℚ := fun l => l.map (fun _ => (5 : ℚ))

def rdC2 : RessourceDistributor := RessourceDistributor.init "UNIFORM" (18 / 5) 6

def gCW2 : GrammarTree :=
  { isTerminal := fun n => n != 0
    childrenD := fun n => if n = 0 then [1] else []
    randomChild := fun n => if n = 0 then 1 else n
    isDeadEnd := fun _ => false
    render := fun n => Nat.repr n }

def sCW2 : SearchState :=
  { store := [mkCounterNode 0 none]
    rd := RessourceDistributor.init "ALL_FROM_ROOT" 1 3
    eb := EvalBuffer.init 1
    counter_root := 0
    current_depth := 1 }

/-! ### Store access lemmas -/

theorem getN_set_self (st : Store) (i : Nat) (n : CounterNode) (h : i < st.length) :
    getN (st.set i n) i = n := by
  simp [getN, List.getD_eq_getElem?_getD, List.getElem?_set_self h]

theorem getN_set_ne (st : Store) (i j : Nat) (n : CounterNode) (h : j ≠ i) :
    getN (st.set i n) j = getN st j := by
  simp [getN, List.getD_eq_getElem?_getD, List.getElem?_set_ne (Ne.symm h)]

theorem set_oob (st : Store) (i : Nat) (n : CounterNode) (h : st.length ≤ i) :
    st.set i n = st :=
  List.set_eq_of_length_le h

theorem getN_oob (st : Store) (j : Nat) (h : st.length ≤ j) : getN st j = default := by
  simp [getN, List.getD_eq_getElem?_getD, List.getElem?_eq_none h]

theorem getN_append_left (st ex : Store) (j : Nat) (h : j < st.length) :
    getN (st ++ ex) j = getN st j := by
  simp [getN, List.getD_eq_getElem?_getD, List.getElem?_append_left h]

theorem getN_append_right (st ex : Store) (j : Nat) (h : st.length ≤ j) :
    getN (st ++ ex) j = ex.getD (j - st.length) default := by
  simp [getN, List.getD_eq_getElem?_getD, List.getElem?_append_right h]

theorem getD_default_or_mem (l : List CounterNode) (k : Nat) :
    l.getD k default = default ∨ l.getD k default ∈ l := by
  rcases h : l[k]? with _ | x
  · left
    simp [List.getD_eq_getElem?_getD, h]
  · right
    simp only [List.getD_eq_getElem?_getD, h, Option.getD_some]
    exact List.getElem?_mem h

theorem childIds_oob (st : Store) (j : Nat) (h : st.length ≤ j) : childIds st j = [] := by
  simp [childIds, getN_oob st j h, default, mkCounterNode]

theorem CCShape.refl (st : Store) : CCShape st st :=
  ⟨rfl, fun _ => rfl, fun _ => rfl⟩

theorem CCShape.trans {st1 st2 st3 : Store} (h1 : CCShape st1 st2) (h2 : CCShape st2 st3) :
    CCShape st1 st3 :=
  ⟨h2.1.trans h1.1, fun j => (h2.2.1 j).trans (h1.2.1 j),
    fun j => (h2.2.2 j).trans (h1.2.2 j)⟩

theorem CCShape.childIds {st st' : Store} (h : CCShape st st') (j : Nat) :
    Mcts.childIds st' j = Mcts.childIds st j := by
  unfold Mcts.childIds
  rw [h.2.2 j]

/-- Setting a node to a value with unchanged `count` and `children_`
preserves the shape. -/
theorem ccShape_set (st : Store) (i : Nat) (n : CounterNode)
    (hc : n.count = (getN st i).count) (hch : n.children_ = (getN st i).children_) :
    CCShape st (st.set i n) := by
  refine ⟨List.length_set .., fun j => ?_, fun j => ?_⟩ <;>
    · by_cases hj : j = i
      · subst hj
        by_cases hl : j < st.length
        · rw [getN_set_self st j _ hl]
          first
          | exact hc
          | exact hch
        · rw [set_oob st j _ (Nat.le_of_not_lt hl)]
      · rw [getN_set_ne st i j _ hj]

/-- Fields other than `count` are preserved by `incCount`, everywhere. -/
theorem getN_incCount (st : Store) (i j : Nat) :
    (getN (incCount st i) j).children_ = (getN st j).children_
    ∧ (getN (incCount st i) j).is_terminal_ = (getN st j).is_terminal_
    ∧ (getN (incCount st i) j).solved = (getN st j).solved
    ∧ (getN (incCount st i) j).reference_node = (getN st j).reference_node
    ∧ (getN (incCount st i) j).parent = (getN st j).parent := by
  unfold incCount
  by_cases hj : j = i
  · subst hj
    by_cases hl : j < st.length
    · rw [getN_set_self st j _ hl]
      exact ⟨rfl, rfl, rfl, rfl, rfl⟩
    · rw [set_oob st j _ (Nat.le_of_not_lt hl)]
      exact ⟨rfl, rfl, rfl, rfl, rfl⟩
  · rw [getN_set_ne st i j _ hj]
    exact ⟨rfl, rfl, rfl, rfl, rfl⟩

theorem childIds_incCount (st : Store) (i j : Nat) :
    childIds (incCount st i) j = childIds st j := by
  unfold childIds
  rw [(getN_incCount st i j).1]

theorem length_incCount (st : Store) (i : Nat) : (incCount st i).length = st.length :=
  List.length_set ..

theorem count_incCount_self (st : Store) (i : Nat) (h : i < st.length) :
    (getN (incCount st i) i).count = (getN st i).count + 1 := by
  unfold incCount
  rw [getN_set_self st i _ h]

theorem count_incCount_ne (st : Store) (i j : Nat) (h : j ≠ i) :
    (getN (incCount st i) j).count = (getN st j).count := by
  unfold incCount
  rw [getN_set_ne st i j _ h]

theorem count_incCount_le (st : Store) (i j : Nat) :
    (getN st j).count ≤ (getN (incCount st i) j).count := by
  unfold incCount
  by_cases hj : j = i
  · subst hj
    by_cases hl : j < st.length
    · rw [getN_set_self st j _ hl]
      exact Nat.le_succ _
    · rw [set_oob st j _ (Nat.le_of_not_lt hl)]
  · rw [getN_set_ne st i j _ hj]

/-- `backpropagate` touches only the reward statistics. -/
theorem backpropagate_shape (fuel : Nat) :
    ∀ (st : Store) (i : Nat) (r : ℚ) (leaf : Nat),
      CCShape st (backpropagate fuel st i r leaf) := by
  induction fuel with
  | zero => intro st i r leaf; exact CCShape.refl st
  | succ fuel ih =>
    intro st i r leaf
    simp only [backpropagate]
    split
    · exact CCShape.refl st
    · split
      · refine (ccShape_set st i _ ?_ ?_).trans (ih _ _ r leaf) <;> rfl
      · refine ccShape_set st i _ ?_ ?_ <;> rfl

/-- Backpropagating a list of results touches only the reward statistics. -/
theorem backpropList_shape (results : List (ℚ × Nat × Nat)) :
    ∀ st : Store, CCShape st (backpropList st results) := by
  induction results with
  | nil => intro st; exact CCShape.refl st
  | cons r rs ih =>
    intro st
    exact (backpropagate_shape st.length st r.2.2 r.1 r.2.1).trans (ih _)

/-- `set_as_solved` touches only the `solved` flags. -/
theorem set_as_solved_shape (fuel : Nat) :
    ∀ (st : Store) (i : Nat) (st' : Store),
      set_as_solved fuel st i = some st' → CCShape st st' := by
  induction fuel with
  | zero => intro st i st' h; exact absurd h (by simp [set_as_solved])
  | succ fuel ih =>
    intro st i st' h
    have hset : CCShape st (st.set i { getN st i with solved := true }) :=
      ccShape_set st i _ rfl rfl
    simp only [set_as_solved] at h
    split at h
    · cases h
      exact hset
    · split at h
      · cases h
        exact hset
      · split at h
        · cases h
        · split at h
          · exact hset.trans (ih _ _ st' h)
          · cases h
            exact hset

/-- Transfer of the store invariants along a shape-preserving step. -/
theorem ccShape_invariants {st st' : Store} (h : CCShape st st') :
    (Inv st → Inv st') ∧ (UniqueParent st → UniqueParent st')
    ∧ (ParentBefore st → ParentBefore st') ∧ (ClosedIds st → ClosedIds st') := by
  obtain ⟨hlen, hcount, hch⟩ := h
  refine ⟨fun hi i hil c hc => ?_, fun hu p hpl q hql c hcp hcq => ?_,
    fun hp i hil c hc => ?_, fun hc i hil c hcc => ?_⟩
  · rw [hcount c, hcount i]
    refine hi i (hlen ▸ hil) c ?_
    rw [← CCShape.childIds ⟨hlen, hcount, hch⟩]
    exact hc
  · refine hu p (hlen ▸ hpl) q (hlen ▸ hql) c ?_ ?_ <;>
      rw [← CCShape.childIds ⟨hlen, hcount, hch⟩] <;> assumption
  · refine hp i (hlen ▸ hil) c ?_
    rw [← CCShape.childIds ⟨hlen, hcount, hch⟩]
    exact hc
  · rw [CCShape.childIds ⟨hlen, hcount, hch⟩ i] at hcc
    rw [hlen] at hil ⊢
    exact hc i hil c hcc

/-! ### Membership facts about the selection policy -/

theorem maxByKey_mem {α β : Type} [LinearOrder β] (f : α → β) (l : List α) (c : α)
    (h : maxByKey f l = some c) : c ∈ l := by
  match l with
  | [] => exact absurd h (by simp [maxByKey])
  | x :: xs =>
    have key : ∀ (ys : List α) (b : α),
        ys.foldl (fun b y => if f y > f b then y else b) b = b
          ∨ ys.foldl (fun b y => if f y > f b then y else b) b ∈ ys := by
      intro ys
      induction ys with
      | nil => intro b; left; rfl
      | cons y ys ih =>
        intro b
        rcases ih (if f y > f b then y else b) with h' | h'
        · rw [List.foldl_cons, h']
          split
          · right
            exact List.mem_cons_self ..
          · left
            rfl
        · right
          exact List.mem_cons_of_mem _ h'
    simp only [maxByKey, Option.some.injEq] at h
    rcases key xs x with h' | h'
    · rw [← h, h']
      exact List.mem_cons_self ..
    · rw [← h]
      exact List.mem_cons_of_mem _ h'

theorem childrenOf_eq_some {st : Store} {i : Nat} {l : List Nat}
    (h : childrenOf st i = some l) : (getN st i).children_ = some l ∧ l ≠ [] := by
  rcases hch : (getN st i).children_ with _ | l'
  · simp [childrenOf, hch] at h
  · simp only [childrenOf, hch] at h
    by_cases he : l'.isEmpty = true
    · rw [if_pos he] at h
      cases h
    · rw [if_neg he] at h
      cases h
      exact ⟨rfl, fun hnil => he (by simp [hnil])⟩

theorem childrenOf_childIds {st : Store} {i : Nat} {l : List Nat}
    (h : childrenOf st i = some l) : childIds st i = l := by
  unfold childIds
  rw [(childrenOf_eq_some h).1]
  rfl

/-- Whatever `selection_policy` returns is one of the node's children. -/
theorem selection_policy_mem {st : Store} {i c : Nat}
    (h : selection_policy st i = some c) : c ∈ childIds st i := by
  rcases hch : childrenOf st i with _ | l
  · simp [selection_policy, hch] at h
  · simp only [selection_policy, hch] at h
    rw [childrenOf_childIds hch]
    rcases hf : l.find? (fun child => (getN st child).count == 0) with _ | c0 <;>
      simp only [hf] at h
    · exact List.mem_of_mem_filter (maxByKey_mem _ _ _ h)
    · cases h
      exact List.mem_of_find?_eq_some hf

theorem incCount_invariants (st : Store) (i : Nat) :
    (UniqueParent st → UniqueParent (incCount st i))
    ∧ (ParentBefore st → ParentBefore (incCount st i))
    ∧ (ClosedIds st → ClosedIds (incCount st i)) := by
  refine ⟨fun h p hp q hq c hcp hcq => ?_, fun h p hp c hc => ?_, fun h p hp c hc => ?_⟩
  · rw [length_incCount] at hp hq
    rw [childIds_incCount] at hcp hcq
    exact h p hp q hq c hcp hcq
  · rw [length_incCount] at hp
    rw [childIds_incCount] at hc
    exact h p hp c hc
  · rw [length_incCount] at hp ⊢
    rw [childIds_incCount] at hc
    exact h p hp c hc

theorem incCount_Inv {st : Store} {i : Nat} (hInv : Inv st) (hPB : ParentBefore st)
    (hi : i < st.length) (hSP : StrictParents st i) : Inv (incCount st i) := by
  intro p hp c hc
  rw [length_incCount] at hp
  rw [childIds_incCount] at hc
  by_cases hci : c = i
  · subst hci
    have hpc : p ≠ c := Nat.ne_of_lt (hPB p hp c hc)
    rw [count_incCount_self st c hi, count_incCount_ne st c p hpc]
    exact hSP p hp hc
  · rw [count_incCount_ne st i c hci]
    by_cases hpi : p = i
    · subst hpi
      exact (hInv p hp c hc).trans (count_incCount_le st p p)
    · rw [count_incCount_ne st i p hpi]
      exact hInv p hp c hc

theorem selLoop_inv (fuel : Nat) :
    ∀ (st : Store) (i : Nat) (st' : Store) (f : Nat),
      Inv st → UniqueParent st → ParentBefore st → ClosedIds st →
      i < st.length → StrictParents st i →
      selLoop fuel st i = some (st', f) →
      Inv st' ∧ UniqueParent st' ∧ ParentBefore st' ∧ ClosedIds st'
        ∧ st'.length = st.length
        ∧ (∀ j, (getN st j).count ≤ (getN st' j).count)
        ∧ (∀ j, (getN st' j).children_ = (getN st j).children_)
        ∧ f < st.length := by
  induction fuel with
  | zero =>
    intro st i st' f _ _ _ _ _ _ h
    exact absurd h (by simp [selLoop])
  | succ fuel ih =>
    intro st i st' f hInv hUP hPB hCl hi hSP h
    have hInv1 : Inv (incCount st i) := incCount_Inv hInv hPB hi hSP
    have hUP1 : UniqueParent (incCount st i) := (incCount_invariants st i).1 hUP
    have hPB1 : ParentBefore (incCount st i) := (incCount_invariants st i).2.1 hPB
    have hCl1 : ClosedIds (incCount st i) := (incCount_invariants st i).2.2 hCl
    simp only [selLoop] at h
    split at h
    · cases h
      refine ⟨hInv1, hUP1, hPB1, hCl1, length_incCount st i,
        fun j => count_incCount_le st i j, fun j => (getN_incCount st i j).1, hi⟩
    · rcases hpol : selection_policy (incCount st i) i with _ | child <;> rw [hpol] at h
      · cases h
      · have hchild : child ∈ childIds st i := by
          rw [← childIds_incCount st i i]
          exact selection_policy_mem hpol
        have hchildlt : child < st.length := hCl i hi child hchild
        have hchildlt1 : child < (incCount st i).length := by
          rw [length_incCount]
          exact hchildlt
        have hSP1 : StrictParents (incCount st i) child := by
          intro p hp hcp
          rw [length_incCount] at hp
          rw [childIds_incCount] at hcp
          have hpi : p = i := hUP p hp i hi child hcp hchild
          subst hpi
          have hchildne : child ≠ p := Ne.symm (Nat.ne_of_lt (hPB p hp child hchild))
          rw [count_incCount_ne st p child hchildne, count_incCount_self st p hi]
          exact Nat.succ_le_succ (hInv p hp child hchild)
        obtain ⟨r1, r2, r3, r4, rlen, rcount, rch, rf⟩ :=
          ih (incCount st i) child st' f hInv1 hUP1 hPB1 hCl1 hchildlt1 hSP1 h
        refine ⟨r1, r2, r3, r4, rlen.trans (length_incCount st i),
          fun j => (count_incCount_le st i j).trans (rcount j),
          fun j => (rch j).trans ((getN_incCount st i j).1), ?_⟩
        rw [length_incCount] at rf
        exact rf

/-! ### Invariant preservation through expansion -/

theorem expand_shape {g : GrammarTree} {st : Store} {i : Nat} {st' : Store}
    (hi : i < st.length) (h : expand g st i = some st') :
    st'.length = st.length + (g.childrenD (getN st i).reference_node).length
    ∧ (∀ j, j < st.length → j ≠ i → getN st' j = getN st j)
    ∧ (getN st' i).count = (getN st i).count
    ∧ (getN st' i).children_
        = some ((List.range (g.childrenD (getN st i).reference_node).length).map (· + st.length))
    ∧ childIds st' i
        = (List.range (g.childrenD (getN st i).reference_node).length).map (· + st.length)
    ∧ (getN st' i).is_terminal_ = false
    ∧ (∀ j, st.length ≤ j → (getN st' j).children_ = none ∧ (getN st' j).count = 0) := by
  simp only [expand] at h
  split at h
  · cases h
  · cases h
    set kids := g.childrenD (getN st i).reference_node with hkids
    set new := kids.map (fun r => mkCounterNode r (some i)) with hnew
    have hlen1 : (st ++ new).length = st.length + kids.length := by
      rw [List.length_append, hnew, List.length_map]
    have hilt : i < (st ++ new).length := by
      rw [hlen1]
      exact Nat.lt_of_lt_of_le hi (Nat.le_add_right ..)
    refine ⟨?_, ?_, ?_, ?_, ?_, ?_, ?_⟩
    · rw [List.length_set, hlen1]
    · intro j hj hji
      rw [getN_set_ne _ i j _ hji, getN_append_left st new j hj]
    · rw [getN_set_self _ i _ hilt]
    · rw [getN_set_self _ i _ hilt]
    · unfold childIds
      rw [getN_set_self _ i _ hilt]
      rfl
    · rw [getN_set_self _ i _ hilt]
    · intro j hj
      have hji : j ≠ i := Nat.ne_of_gt (Nat.lt_of_lt_of_le hi hj)
      rw [getN_set_ne _ i j _ hji, getN_append_right st new j hj]
      rcases getD_default_or_mem new (j - st.length) with hd | hm
      · rw [hd]
        exact ⟨rfl, rfl⟩
      · rw [hnew] at hm
        obtain ⟨r, _, hr⟩ := List.mem_map.mp hm
        rw [← hr]
        exact ⟨rfl, rfl⟩

/-- Membership in the fresh-children list gives the id bounds. -/
theorem mem_fresh {K base c : Nat} (h : c ∈ (List.range K).map (· + base)) :
    base ≤ c ∧ c < base + K := by
  obtain ⟨k, hk, hc⟩ := List.mem_map.mp h
  rw [List.mem_range] at hk
  subst hc
  exact ⟨Nat.le_add_left .., by omega⟩

theorem expand_invariants {g : GrammarTree} {st : Store} {i : Nat} {st' : Store}
    (hi : i < st.length) (h : expand g st i = some st')
    (hInv : Inv st) (hUP : UniqueParent st) (hPB : ParentBefore st) (hCl : ClosedIds st) :
    Inv st' ∧ UniqueParent st' ∧ ParentBefore st' ∧ ClosedIds st'
      ∧ st.length ≤ st'.length
      ∧ (∀ j, (getN st j).count ≤ (getN st' j).count)
      ∧ (∀ r, r < st.length → (∀ p < st.length, r ∉ childIds st p) →
          ∀ p < st'.length, r ∉ childIds st' p) := by
  obtain ⟨hlen, hold, hcnt, _, hfresh, _, hnewn⟩ := expand_shape hi h
  have hchIds : ∀ j, j < st.length → j ≠ i → childIds st' j = childIds st j := by
    intro j hj hji
    unfold childIds
    rw [hold j hj hji]
  have hchNew : ∀ j, st.length ≤ j → childIds st' j = [] := by
    intro j hj
    unfold childIds
    rw [(hnewn j hj).1]
    rfl
  have hcnt' : ∀ j, (getN st j).count ≤ (getN st' j).count := by
    intro j
    by_cases hj : j < st.length
    · by_cases hji : j = i
      · subst hji
        rw [hcnt]
      · rw [hold j hj hji]
    · rw [getN_oob st j (Nat.le_of_not_lt hj)]
      exact Nat.zero_le _
  have hcntEq : ∀ j, j < st.length → (getN st' j).count = (getN st j).count := by
    intro j hj
    by_cases hji : j = i
    · subst hji
      exact hcnt
    · rw [hold j hj hji]
  refine ⟨?_, ?_, ?_, ?_, hlen ▸ Nat.le_add_right .., hcnt', ?_⟩
  · intro p hp c hc
    by_cases hpl : p < st.length
    · by_cases hpi : p = i
      · subst hpi
        rw [hfresh] at hc
        have := (mem_fresh hc).1
        rw [(hnewn c this).2]
        exact Nat.zero_le _
      · rw [hchIds p hpl hpi] at hc
        have hcl : c < st.length := hCl p hpl c hc
        rw [hcntEq c hcl, hcntEq p hpl]
        exact hInv p hpl c hc
    · rw [hchNew p (Nat.le_of_not_lt hpl)] at hc
      cases hc
  · intro p hp q hq c hcp hcq
    by_cases hpl : p < st.length
    · by_cases hql : q < st.length
      · by_cases hpi : p = i
        · subst hpi
          rw [hfresh] at hcp
          have hcge := (mem_fresh hcp).1
          by_cases hqi : q = p
          · rw [hqi]
          · rw [hchIds q hql hqi] at hcq
            exact absurd (hCl q hql c hcq) (Nat.not_lt_of_le hcge)
        · by_cases hqi : q = i
          · subst hqi
            rw [hfresh] at hcq
            have hcge := (mem_fresh hcq).1
            rw [hchIds p hpl hpi] at hcp
            exact absurd (hCl p hpl c hcp) (Nat.not_lt_of_le hcge)
          · rw [hchIds p hpl hpi] at hcp
            rw [hchIds q hql hqi] at hcq
            exact hUP p hpl q hql c hcp hcq
      · rw [hchNew q (Nat.le_of_not_lt hql)] at hcq
        cases hcq
    · rw [hchNew p (Nat.le_of_not_lt hpl)] at hcp
      cases hcp
  · intro p hp c hc
    by_cases hpl : p < st.length
    · by_cases hpi : p = i
      · subst hpi
        rw [hfresh] at hc
        exact Nat.lt_of_lt_of_le hpl (mem_fresh hc).1
      · rw [hchIds p hpl hpi] at hc
        exact hPB p hpl c hc
    · rw [hchNew p (Nat.le_of_not_lt hpl)] at hc
      cases hc
  · intro p hp c hc
    by_cases hpl : p < st.length
    · by_cases hpi : p = i
      · subst hpi
        rw [hfresh] at hc
        rw [hlen]
        exact (mem_fresh hc).2
      · rw [hchIds p hpl hpi] at hc
        refine Nat.lt_of_lt_of_le (hCl p hpl c hc) ?_
        rw [hlen]
        exact Nat.le_add_right ..
    · rw [hchNew p (Nat.le_of_not_lt hpl)] at hc
      cases hc
  · intro r hr hroot p hp hcp
    by_cases hpl : p < st.length
    · by_cases hpi : p = i
      · subst hpi
        rw [hfresh] at hcp
        exact absurd hr (Nat.not_lt_of_le ((mem_fresh hcp).1))
      · rw [hchIds p hpl hpi] at hcp
        exact hroot p hpl hcp
    · rw [hchNew p (Nat.le_of_not_lt hpl)] at hcp
      cases hcp

/-! ### Visit counts never decrease, under any strategy; invariant preservation -/

theorem selLoop_mono (fuel : Nat) :
    ∀ (st : Store) (i : Nat) (st' : Store) (f : Nat),
      selLoop fuel st i = some (st', f) →
      ∀ j, (getN st j).count ≤ (getN st' j).count := by
  induction fuel with
  | zero =>
    intro st i st' f h
    exact absurd h (by simp [selLoop])
  | succ fuel ih =>
    intro st i st' f h j
    simp only [selLoop] at h
    split at h
    · cases h
      exact count_incCount_le st i j
    · rcases hpol : selection_policy (incCount st i) i with _ | child <;> rw [hpol] at h
      · cases h
      · exact (count_incCount_le st i j).trans (ih (incCount st i) child st' f h j)

theorem expand_mono {g : GrammarTree} {st : Store} {i : Nat} {st' : Store}
    (h : expand g st i = some st') :
    ∀ j, (getN st j).count ≤ (getN st' j).count := by
  simp only [expand] at h
  split at h
  · cases h
  · cases h
    intro j
    by_cases hj : j = i
    · subst hj
      by_cases hset : j < (st ++ (g.childrenD (getN st j).reference_node).map
          (fun r => mkCounterNode r (some j))).length
      · rw [getN_set_self _ j _ hset]
      · rw [set_oob _ j _ (Nat.le_of_not_lt hset)]
        have hoob : st.length ≤ j := by
          refine Nat.le_trans ?_ (Nat.le_of_not_lt hset)
          rw [List.length_append]
          exact Nat.le_add_right ..
        rw [getN_oob st j hoob]
        exact Nat.zero_le _
    · rw [getN_set_ne _ i j _ hj]
      by_cases hjl : j < st.length
      · rw [getN_append_left _ _ j hjl]
      · rw [getN_oob st j (Nat.le_of_not_lt hjl)]
        exact Nat.zero_le _

/-- Counts are untouched by the backpropagation passes and the freeze
assignment of the root-advancement step. -/
theorem counts_freeze_backprops (st2 : Store) (A B : List (ℚ × Nat × Nat)) (root : Nat) :
    ∀ j, (getN ((backpropList (backpropList st2 A) B).set root
        { getN (backpropList (backpropList st2 A) B) root with freeze := true }) j).count
      = (getN st2 j).count := by
  intro j
  have h1 := (backpropList_shape A st2).2.1 j
  have h2 := (backpropList_shape B (backpropList st2 A)).2.1 j
  have h3 := (ccShape_set (backpropList (backpropList st2 A) B) root
    { getN (backpropList (backpropList st2 A) B) root with freeze := true } rfl rfl).2.1 j
  exact h3.trans (h2.trans h1)

/-- Visit counts never decrease across one loop iteration, whatever the
allocation strategy and whether or not the root advances. -/
theorem loopIter_mono (g : GrammarTree) (scorer : List String → List ℚ)
    (simFuel : Nat) (t t' : SearchState) (h : loopIter g scorer simFuel t = some t') :
    ∀ j, (getN t.store j).count ≤ (getN t'.store j).count := by
  simp only [loopIter] at h
  rcases hsel : selection_phase (t.store.length + 1) t.store t.counter_root with _ | st1f
  · rw [hsel] at h
    exact Option.noConfusion h
  · obtain ⟨st1, frontier⟩ := st1f
    simp only [hsel] at h
    have hm1 : ∀ j, (getN t.store j).count ≤ (getN st1 j).count :=
      selLoop_mono (t.store.length + 1) t.store t.counter_root st1 frontier hsel
    have adv : ∀ (st5 : Store) (rd2 : RessourceDistributor) (eb2 : EvalBuffer) (d2 : Nat),
        (∀ j2, (getN st1 j2).count ≤ (getN st5 j2).count) →
        (match childrenOf st5 t.counter_root with
          | none => none
          | some l =>
            match maxByKey (fun child => (getN st5 child).top_reward) l with
            | none => none
            | some best =>
              some { store := st5, rd := rd2, eb := eb2, counter_root := best
                     current_depth := d2 }) = some t' →
        ∀ j, (getN st1 j).count ≤ (getN t'.store j).count := by
      intro st5 rd2 eb2 d2 hm5 hmm j
      rcases hch : childrenOf st5 t.counter_root with _ | l <;> simp only [hch] at hmm
      · exact Option.noConfusion hmm
      · rcases hmax : maxByKey (fun child => (getN st5 child).top_reward) l with _ | best <;>
          simp only [hmax] at hmm
        · exact Option.noConfusion hmm
        · cases hmm
          exact hm5 j
    have key : ∀ st2 : Store, (∀ j2, (getN st1 j2).count ≤ (getN st2 j2).count) →
        (match simulate simFuel g (getN st2 frontier).reference_node with
          | none => none
          | some random_leaf =>
            match (t.rd.consume_one_unit).should_go_down_into_the_tree with
            | none => none
            | some false =>
              some { store := backpropList st2
                       (pop_results (add g scorer t.eb frontier random_leaf)).1
                     rd := t.rd.consume_one_unit
                     eb := (pop_results (add g scorer t.eb frontier random_leaf)).2
                     counter_root := t.counter_root, current_depth := t.current_depth }
            | some true =>
              let eb3 := force_eval g scorer
                (pop_results (add g scorer t.eb frontier random_leaf)).2
              let st4 := backpropList
                (backpropList st2 (pop_results (add g scorer t.eb frontier random_leaf)).1)
                (pop_results eb3).1
              let st5 := st4.set t.counter_root { getN st4 t.counter_root with freeze := true }
              match childrenOf st5 t.counter_root with
              | none => none
              | some l =>
                match maxByKey (fun child => (getN st5 child).top_reward) l with
                | none => none
                | some best =>
                  some { store := st5, rd := (t.rd.consume_one_unit).set_new_position
                           (t.current_depth + 1)
                         eb := (pop_results eb3).2, counter_root := best
                         current_depth := t.current_depth + 1 }) = some t' →
        ∀ j, (getN st1 j).count ≤ (getN t'.store j).count := by
      intro st2 hm2 hmatch j
      rcases hsim : simulate simFuel g (getN st2 frontier).reference_node with _ | leaf <;>
        simp only [hsim] at hmatch
      · exact Option.noConfusion hmatch
      · rcases hsgd : (t.rd.consume_one_unit).should_go_down_into_the_tree with _ | b <;>
          simp only [hsgd] at hmatch
        · exact Option.noConfusion hmatch
        · cases b
          · cases hmatch
            exact (hm2 j).trans (Nat.le_of_eq ((backpropList_shape _ st2).2.1 j).symm)
          · simp only at hmatch
            refine adv _ _ _ _ ?_ hmatch j
            intro j2
            exact (hm2 j2).trans
              (Nat.le_of_eq (counts_freeze_backprops st2 _ _ t.counter_root j2).symm)
    intro j
    refine (hm1 j).trans ?_
    by_cases hterm : g.isTerminal (getN st1 frontier).reference_node = true
    · rw [if_pos hterm] at h
      rcases hsolv : set_as_solved st1.length st1 frontier with _ | st2 <;>
        simp only [hsolv] at h
      · exact Option.noConfusion h
      · exact key st2 (fun j2 => Nat.le_of_eq
          ((set_as_solved_shape st1.length st1 frontier st2 hsolv).2.1 j2).symm) h j
    · rw [if_neg hterm] at h
      rcases hexp : expand g st1 frontier with _ | st2 <;> simp only [hexp] at h
      · exact Option.noConfusion h
      · exact key st2 (expand_mono hexp) h j

theorem ccShape_rootfree {st st' : Store} (h : CCShape st st') (r : Nat)
    (hr : ∀ p < st.length, r ∉ childIds st p) : ∀ p < st'.length, r ∉ childIds st' p := by
  intro p hp
  rw [CCShape.childIds h p]
  exact hr p (h.1 ▸ hp)

theorem strategy_consume (rd : RessourceDistributor) :
    rd.consume_one_unit.strategy = rd.strategy := rfl

theorem should_go_down_all_from_root (rd : RessourceDistributor)
    (h : rd.strategy = "ALL_FROM_ROOT") :
    rd.should_go_down_into_the_tree = some false := by
  unfold RessourceDistributor.should_go_down_into_the_tree
  rw [h, if_pos rfl]

/-- C2 (amended): visit counts are non-negative (they are naturals) and
non-decreasing across every loop iteration under any strategy; and in the
absence of root advancement — under the `ALL_FROM_ROOT` strategy — every
iteration of the search loop also preserves `parent.count ≥ child.count` for
every parent/child pair, together with the store well-formedness it rests
on, and keeps the logical root in place.  (After a root advancement the
parent/child inequality can fail: see the counterexample.) -/
theorem loopIter_invariants (g : GrammarTree) (scorer : List String → List ℚ)
    (simFuel : Nat) (s s' : SearchState) (hstrat : s.rd.strategy = "ALL_FROM_ROOT")
    (hg : GoodState s) (h : loopIter g scorer simFuel s = some s') :
    (GoodState s'
      ∧ (∀ i < s'.store.length, ∀ c ∈ childIds s'.store i,
          (getN s'.store c).count ≤ (getN s'.store i).count)
      ∧ (∀ j, (getN s.store j).count ≤ (getN s'.store j).count)
      ∧ s'.counter_root = s.counter_root ∧ s.store.length ≤ s'.store.length)
    ∧ ∀ (t t' : SearchState), loopIter g scorer simFuel t = some t' →
        ∀ j, (getN t.store j).count ≤ (getN t'.store j).count := by
  refine ⟨?_, fun t2 t2' ht => loopIter_mono g scorer simFuel t2 t2' ht⟩
  obtain ⟨hInv, hUP, hPB, hCl, hroot, hrootfree⟩ := hg
  have hSP : StrictParents s.store s.counter_root := by
    intro p hp hmem
    exact absurd hmem (hrootfree p hp)
  simp only [loopIter] at h
  rcases hsel : selection_phase (s.store.length + 1) s.store s.counter_root with _ | st1f
  · rw [hsel] at h
    cases h
  · obtain ⟨st1, frontier⟩ := st1f
    simp only [hsel] at h
    obtain ⟨hInv1, hUP1, hPB1, hCl1, hlen1, hcount1, hch1, hfr⟩ :=
      selLoop_inv (s.store.length + 1) s.store s.counter_root st1 frontier
        hInv hUP hPB hCl hroot hSP hsel
    have hcc1 : ∀ j, childIds st1 j = childIds s.store j := by
      intro j
      unfold childIds
      rw [hch1 j]
    have hrootfree1 : ∀ p < st1.length, s.counter_root ∉ childIds st1 p := by
      intro p hp
      rw [hcc1 p]
      exact hrootfree p (hlen1 ▸ hp)
    have hfr1 : frontier < st1.length := by
      rw [hlen1]
      exact hfr
    have hsgd : (s.rd.consume_one_unit).should_go_down_into_the_tree = some false :=
      should_go_down_all_from_root _ ((strategy_consume s.rd).trans hstrat)
    have main : ∀ (st2 : Store) (popres : List (ℚ × Nat × Nat))
        (rd2 : RessourceDistributor) (eb2 : EvalBuffer),
        (Inv st2 ∧ UniqueParent st2 ∧ ParentBefore st2 ∧ ClosedIds st2
          ∧ st1.length ≤ st2.length
          ∧ (∀ j, (getN st1 j).count ≤ (getN st2 j).count)
          ∧ (∀ p < st2.length, s.counter_root ∉ childIds st2 p)) →
        GoodState { store := backpropList st2 popres, rd := rd2, eb := eb2
                    counter_root := s.counter_root, current_depth := s.current_depth }
        ∧ (∀ i < (backpropList st2 popres).length, ∀ c ∈ childIds (backpropList st2 popres) i,
            (getN (backpropList st2 popres) c).count ≤ (getN (backpropList st2 popres) i).count)
        ∧ (∀ j, (getN s.store j).count ≤ (getN (backpropList st2 popres) j).count)
        ∧ s.counter_root = s.counter_root ∧ s.store.length ≤ (backpropList st2 popres).length := by
      intro st2 popres rd2 eb2 hfacts
      obtain ⟨i2, u2, p2, c2, l2, m2, rf2⟩ := hfacts
      have hbp : CCShape st2 (backpropList st2 popres) := backpropList_shape popres st2
      obtain ⟨ti, tu, tp, tc⟩ := ccShape_invariants hbp
      have hrootlt2 : s.counter_root < st2.length :=
        Nat.lt_of_lt_of_le (hlen1 ▸ hroot) l2
      refine ⟨⟨ti i2, tu u2, tp p2, tc c2, ?_, ?_⟩, ti i2, ?_, rfl, ?_⟩
      · show s.counter_root < (backpropList st2 popres).length
        rw [hbp.1]
        exact hrootlt2
      · exact ccShape_rootfree hbp s.counter_root rf2
      · intro j
        calc (getN s.store j).count ≤ (getN st1 j).count := hcount1 j
          _ ≤ (getN st2 j).count := m2 j
          _ = (getN (backpropList st2 popres) j).count := (hbp.2.1 j).symm
      · rw [hbp.1, ← hlen1]
        exact l2
    by_cases hterm : g.isTerminal (getN st1 frontier).reference_node = true
    · rw [if_pos hterm] at h
      rcases hsolv : set_as_solved st1.length st1 frontier with _ | st2
      · simp only [hsolv] at h
        exact Option.noConfusion h
      · simp only [hsolv] at h
        have shape := set_as_solved_shape st1.length st1 frontier st2 hsolv
        obtain ⟨ti, tu, tp, tc⟩ := ccShape_invariants shape
        rcases hsim : simulate simFuel g (getN st2 frontier).reference_node with _ | leaf
        · simp only [hsim] at h
          exact Option.noConfusion h
        · simp only [hsim, hsgd] at h
          cases h
          exact main st2 _ _ _
            ⟨ti hInv1, tu hUP1, tp hPB1, tc hCl1, Nat.le_of_eq shape.1.symm,
              fun j => Nat.le_of_eq (shape.2.1 j).symm,
              ccShape_rootfree shape s.counter_root hrootfree1⟩
    · rw [if_neg hterm] at h
      rcases hexp : expand g st1 frontier with _ | st2
      · simp only [hexp] at h
        exact Option.noConfusion h
      · simp only [hexp] at h
        obtain ⟨i2, u2, p2, c2, l2, m2, rfpres⟩ := expand_invariants hfr1 hexp hInv1 hUP1 hPB1 hCl1
        rcases hsim : simulate simFuel g (getN st2 frontier).reference_node with _ | leaf
        · simp only [hsim] at h
          exact Option.noConfusion h
        · simp only [hsim, hsgd] at h
          cases h
          exact main st2 _ _ _
            ⟨i2, u2, p2, c2, l2, m2,
              rfpres s.counter_root (hlen1 ▸ hroot) hrootfree1⟩

theorem init_all_from_root (m : ℚ) (r : Nat) :
    RessourceDistributor.init "ALL_FROM_ROOT" m r
      = { strategy := "ALL_FROM_ROOT", ressources_to_consume := r
          ressources_to_consume_at_current_depth := some (r : ℚ)
          current_depth := 1, ressources_already_consumed := 0
          ressources_already_consumed_at_current_depth := 0 } := by
  simp only [RessourceDistributor.init]
  rw [if_neg (by decide), if_pos rfl]

theorem init_uniform (m : ℚ) (r : Nat) :
    RessourceDistributor.init "UNIFORM" m r
      = { strategy := "UNIFORM", ressources_to_consume := r
          ressources_to_consume_at_current_depth := some ((r : ℚ) / m * (6 / 5))
          current_depth := 1, ressources_already_consumed := 0
          ressources_already_consumed_at_current_depth := 0 } := by
  simp only [RessourceDistributor.init]
  rw [if_neg (by decide), if_neg (by decide), if_pos rfl]

theorem init_unknown (str : String) (m : ℚ) (r : Nat) (h1 : str ≠ "")
    (h2 : str ≠ "ALL_FROM_ROOT") (h3 : str ≠ "UNIFORM") :
    RessourceDistributor.init str m r
      = { strategy := str, ressources_to_consume := r
          ressources_to_consume_at_current_depth := none
          current_depth := 1, ressources_already_consumed := 0
          ressources_already_consumed_at_current_depth := 0 } := by
  simp only [RessourceDistributor.init]
  rw [if_neg h1, if_neg h2, if_neg h3]

/-- `consume_one_unit` and `set_new_position` touch neither the strategy tag
nor the per-depth quota. -/
theorem applyOps_strategy_quota (ops : List RDOp) :
    ∀ rd : RessourceDistributor,
      (applyOps ops rd).strategy = rd.strategy
      ∧ (applyOps ops rd).ressources_to_consume_at_current_depth
          = rd.ressources_to_consume_at_current_depth := by
  induction ops with
  | nil => intro rd; exact ⟨rfl, rfl⟩
  | cons op ops ih =>
    intro rd
    obtain ⟨h1, h2⟩ := ih (applyOp rd op)
    have hop : (applyOp rd op).strategy = rd.strategy
        ∧ (applyOp rd op).ressources_to_consume_at_current_depth
            = rd.ressources_to_consume_at_current_depth := by
      cases op <;> exact ⟨rfl, rfl⟩
    exact ⟨h1.trans hop.1, h2.trans hop.2⟩

/-! ### Claim C8 -/

/-- C8: under `ALL_FROM_ROOT` (the spec\'s `EXHAUST_FROM_ROOT`),
`should_go_down_into_the_tree` returns `false` after any sequence of
`consume_one_unit` / `set_new_position` calls; under `UNIFORM` (the spec\'s
`UNIFORM_PER_DEPTH`) it returns exactly whether the units consumed at the
current depth have reached the quota `ressources / meanDepth * 1.2`; and
`set_new_position` resets the per-depth consumption counter to `0`. -/
theorem C8_strategies (m : ℚ) (r : Nat) (ops : List RDOp) (d : Nat)
    (rd : RessourceDistributor) :
    (applyOps ops (RessourceDistributor.init "ALL_FROM_ROOT" m r)).should_go_down_into_the_tree
        = some false
    ∧ (applyOps ops (RessourceDistributor.init "UNIFORM" m r)).should_go_down_into_the_tree
        = some (decide ((r : ℚ) / m * (6 / 5) ≤
            ((applyOps ops
              (RessourceDistributor.init "UNIFORM" m r)).ressources_already_consumed_at_current_depth : ℚ)))
    ∧ (rd.set_new_position d).ressources_already_consumed_at_current_depth = 0 := by
  refine ⟨?_, ?_, rfl⟩
  · apply should_go_down_all_from_root
    rw [(applyOps_strategy_quota ops _).1, init_all_from_root]
  · obtain ⟨hstrat, hquota⟩ :=
      applyOps_strategy_quota ops (RessourceDistributor.init "UNIFORM" m r)
    have hstrat2 : (applyOps ops (RessourceDistributor.init "UNIFORM" m r)).strategy
        = "UNIFORM" := hstrat.trans (by rw [init_uniform])
    have hquota2 : (applyOps ops
          (RessourceDistributor.init "UNIFORM" m r)).ressources_to_consume_at_current_depth
        = some ((r : ℚ) / m * (6 / 5)) := hquota.trans (by rw [init_uniform])
    unfold RessourceDistributor.should_go_down_into_the_tree
    rw [hstrat2, if_neg (by decide), hquota2]

/-! ### Claim C4 -/

/-- C4 (amended): for a non-empty strategy tag other than `ALL_FROM_ROOT`
and `UNIFORM`, construction indeed succeeds without validation and takes the
depth-uniform code path, but `ressources_to_consume_at_current_depth` is
never assigned, so every later call to `should_go_down_into_the_tree` raises
`AttributeError` instead of performing the depth-uniform comparison. -/
theorem C4_unknown_strategy (str : String) (m : ℚ) (r : Nat) (h1 : str ≠ "")
    (h2 : str ≠ "ALL_FROM_ROOT") (h3 : str ≠ "UNIFORM") :
    (RessourceDistributor.init str m r).strategy = str
    ∧ (RessourceDistributor.init str m r).ressources_to_consume_at_current_depth = none
    ∧ ∀ ops : List RDOp,
        (applyOps ops (RessourceDistributor.init str m r)).should_go_down_into_the_tree
          = none := by
  rw [init_unknown str m r h1 h2 h3]
  refine ⟨rfl, rfl, ?_⟩
  intro ops
  obtain ⟨hstrat, hquota⟩ := applyOps_strategy_quota ops _
  unfold RessourceDistributor.should_go_down_into_the_tree
  rw [hstrat, hquota]
  rw [if_neg h2]

/-- C4 counterexample: with the unknown tag `LINEAR` the first
`should_go_down_into_the_tree` call raises `AttributeError` (modelled as
`none`), whereas depth-uniform behaviour at the same state would return
`some false` — so the unknown tag does not fall back to `UNIFORM`
behaviour. -/
theorem C4_cex :
    (RessourceDistributor.init "LINEAR" 2 10).should_go_down_into_the_tree = none
    ∧ (RessourceDistributor.init "UNIFORM" 2 10).should_go_down_into_the_tree = some false := by
  with_unfolding_all decide

/-- C4 witness for the amended theorem, at the concrete tag `LINEAR`. -/
theorem C4_unknown_strategy_witness :
    (RessourceDistributor.init "LINEAR" 2 10).strategy = "LINEAR"
    ∧ (RessourceDistributor.init "LINEAR" 2 10).ressources_to_consume_at_current_depth = none
    ∧ ∀ ops : List RDOp,
        (applyOps ops (RessourceDistributor.init "LINEAR" 2 10)).should_go_down_into_the_tree
          = none :=
  C4_unknown_strategy "LINEAR" 2 10 (by decide) (by decide) (by decide)

/-! ### Claim C7 -/

/-- C7: `backpropagate` on a frozen node returns immediately: the whole
store — the frozen node\'s statistics and every ancestor\'s — is unchanged. -/
theorem C7_frozen_backpropagate (fuel : Nat) (st : Store) (i : Nat) (r : ℚ) (leaf : Nat)
    (h : (getN st i).freeze = true) : backpropagate fuel st i r leaf = st := by
  cases fuel with
  | zero => rfl
  | succ fuel =>
    unfold backpropagate
    rw [if_pos h]

/-- C7 witness: a concrete frozen node, untouched by `backpropagate`. -/
theorem C7_frozen_backpropagate_witness : backpropagate 2 stC7 0 5 0 = stC7 :=
  C7_frozen_backpropagate 2 stC7 0 5 0 (by decide)

/-! ### Claim C9 -/

/-- C9: the single-player UCB of the code is exactly the spec formula
`mean + sqrt(C ln(count(p)/count(c))) + sqrt((sumSq - count mean^2 + D)/count)`
with `C=1, D=100` (under the precondition `count(c) > 0`), and the selection
policy never evaluates it on a never-visited child: the first child with
visit count `0`, in child order, is returned before any UCB comparison, and
when no such child exists every child the UCB maximisation ranges over has a
positive visit count. -/
theorem C9_ucb (child parent : CounterNode) (_hpos : 0 < child.count) :
    single_player_ucb child parent 1 100 = ucb_spec_formula child parent
    ∧ (∀ (st : Store) (i : Nat) (l : List Nat) (c0 : Nat),
        childrenOf st i = some l →
        l.find? (fun ch => (getN st ch).count == 0) = some c0 →
        selection_policy st i = some c0)
    ∧ (∀ (st : Store) (i : Nat) (l : List Nat),
        childrenOf st i = some l →
        l.find? (fun ch => (getN st ch).count == 0) = none →
        ∀ c ∈ l.filter (fun ch => !(getN st ch).solved), 0 < (getN st c).count) := by
  refine ⟨rfl, ?_, ?_⟩
  · intro st i l c0 hch hf
    simp only [selection_policy, hch, hf]
  · intro st i l hch hf c hcmem
    have hnotz := List.find?_eq_none.mp hf c (List.mem_of_mem_filter hcmem)
    simp only [beq_iff_eq] at hnotz
    exact Nat.pos_of_ne_zero hnotz

/-- C9 witness at a concrete visited child. -/
theorem C9_ucb_witness :
    single_player_ucb childC9 parentC9 1 100 = ucb_spec_formula childC9 parentC9
    ∧ (∀ (st : Store) (i : Nat) (l : List Nat) (c0 : Nat),
        childrenOf st i = some l →
        l.find? (fun ch => (getN st ch).count == 0) = some c0 →
        selection_policy st i = some c0)
    ∧ (∀ (st : Store) (i : Nat) (l : List Nat),
        childrenOf st i = some l →
        l.find? (fun ch => (getN st ch).count == 0) = none →
        ∀ c ∈ l.filter (fun ch => !(getN st ch).solved), 0 < (getN st c).count) :=
  C9_ucb childC9 parentC9 (by decide)

/-! ### Claim C10 -/

/-- C10: expanding a node whose non-terminal domain node has no children
succeeds and marks the node expanded (`_is_terminal = False`, so selection
descends into it), yet the empty child list fails the truthiness assertion
in `children()`, so `children()` still raises and the selection loop aborts
at this node. -/
theorem C10_empty_expansion (g : GrammarTree) (st : Store) (i : Nat) (hi : i < st.length)
    (hterm : g.isTerminal (getN st i).reference_node = false)
    (hkids : g.childrenD (getN st i).reference_node = []) :
    ∃ st', expand g st i = some st'
      ∧ (getN st' i).is_terminal_ = false
      ∧ childrenOf st' i = none
      ∧ selection_policy st' i = none
      ∧ ∀ fuel, selLoop fuel st' i = none := by
  have hsome : ∃ st2, expand g st i = some st2 := by
    simp only [expand]
    rw [if_neg (by rw [hterm]; exact Bool.false_ne_true)]
    exact ⟨_, rfl⟩
  obtain ⟨st', hst'⟩ := hsome
  obtain ⟨_, _, _, hchv, _, hterm', _⟩ := expand_shape hi hst'
  have hchv' : (getN st' i).children_ = some [] := by
    rw [hchv, hkids]
    rfl
  have hchn : childrenOf st' i = none := by
    unfold childrenOf
    rw [hchv']
    rfl
  have hpol : selection_policy st' i = none := by
    unfold selection_policy
    rw [hchn]
  have hchv1 : (getN (incCount st' i) i).children_ = some [] := by
    rw [(getN_incCount st' i i).1]
    exact hchv'
  have hchn1 : childrenOf (incCount st' i) i = none := by
    unfold childrenOf
    rw [hchv1]
    rfl
  have hpol1 : selection_policy (incCount st' i) i = none := by
    unfold selection_policy
    rw [hchn1]
  refine ⟨st', hst', hterm', hchn, hpol, ?_⟩
  intro fuel
  cases fuel with
  | zero => rfl
  | succ fuel =>
    simp only [selLoop]
    rw [if_neg (by rw [(getN_incCount st' i i).2.1, hterm']; exact Bool.false_ne_true)]
    rw [hpol1]

/-- C10 witness: a concrete non-terminal, childless domain node. -/
theorem C10_empty_expansion_witness :
    ∃ st', expand gC10 stC10 0 = some st'
      ∧ (getN st' 0).is_terminal_ = false
      ∧ childrenOf st' 0 = none
      ∧ selection_policy st' 0 = none
      ∧ ∀ fuel, selLoop fuel st' 0 = none :=
  C10_empty_expansion gC10 stC10 0 (by decide) (by decide) (by decide)

/-! ### Claim C3 -/

/-- C3 (amended): `expand()` asserts only that the wrapped domain node is
not terminal.  Expanding a terminal node raises; expanding an
already-expanded node whose domain node is not terminal does NOT raise — it
silently re-expands, overwriting `_children` with freshly created nodes. -/
theorem C3_expand_assertions (g : GrammarTree) (st : Store) (i : Nat) (hi : i < st.length) :
    (g.isTerminal (getN st i).reference_node = true → expand g st i = none)
    ∧ (g.isTerminal (getN st i).reference_node = false →
        ∃ st', expand g st i = some st'
          ∧ (getN st' i).children_
              = some ((List.range (g.childrenD (getN st i).reference_node).length).map
                  (· + st.length))
          ∧ (getN st' i).is_terminal_ = false) := by
  constructor
  · intro hterm
    simp only [expand]
    rw [if_pos hterm]
  · intro hterm
    have hsome : ∃ st2, expand g st i = some st2 := by
      simp only [expand]
      rw [if_neg (by rw [hterm]; exact Bool.false_ne_true)]
      exact ⟨_, rfl⟩
    obtain ⟨st', hst'⟩ := hsome
    obtain ⟨_, _, _, hchv, _, hterm', _⟩ := expand_shape hi hst'
    exact ⟨st', hst', hchv, hterm'⟩

/-- C3 counterexample: node `0` has already been expanded (`_children` is a
non-empty list), its domain node is not terminal, and `expand` does NOT
raise — contradicting the claim that both precondition violations abort. -/
theorem C3_cex : (getN stC3 0).children_ ≠ none ∧ expand gC3 stC3 0 ≠ none := by
  with_unfolding_all decide

/-- C3 witness for the amended theorem, at the already-expanded node `0` of
the concrete store. -/
theorem C3_expand_assertions_witness :
    (gC3.isTerminal (getN stC3 0).reference_node = true → expand gC3 stC3 0 = none)
    ∧ (gC3.isTerminal (getN stC3 0).reference_node = false →
        ∃ st', expand gC3 stC3 0 = some st'
          ∧ (getN st' 0).children_
              = some ((List.range (gC3.childrenD (getN stC3 0).reference_node).length).map
                  (· + stC3.length))
          ∧ (getN st' 0).is_terminal_ = false) :=
  C3_expand_assertions gC3 stC3 0 (by decide)

/-! ### Claim C5 -/

/-- C5: a dead-end leaf gets the triple `(0, leaf, owner)` appended directly
to `results`; the pending buffer is untouched and the scorer is not invoked
(no new entry in the call log). -/
theorem C5_dead_end (g : GrammarTree) (scorer : List String → List ℚ) (eb : EvalBuffer)
    (owner leaf : Nat) (hd : g.isDeadEnd leaf = true)
    (hlen : eb.buffer.length < eb.buffer_size) :
    add g scorer eb owner leaf = { eb with results := eb.results ++ [((0 : ℚ), leaf, owner)] }
    ∧ (add g scorer eb owner leaf).calls = eb.calls
    ∧ (add g scorer eb owner leaf).buffer = eb.buffer := by
  have key : add g scorer eb owner leaf
      = { eb with results := eb.results ++ [((0 : ℚ), leaf, owner)] } := by
    simp only [add]
    rw [if_pos hd]
    rw [if_neg (Nat.ne_of_lt hlen)]
  exact ⟨key, by rw [key], by rw [key]⟩

/-- C5 witness at a concrete dead-end leaf. -/
theorem C5_dead_end_witness :
    add gC5 scorerC5 (EvalBuffer.init 1) 0 7
      = { EvalBuffer.init 1 with
          results := (EvalBuffer.init 1).results ++ [((0 : ℚ), 7, 0)] }
    ∧ (add gC5 scorerC5 (EvalBuffer.init 1) 0 7).calls = (EvalBuffer.init 1).calls
    ∧ (add gC5 scorerC5 (EvalBuffer.init 1) 0 7).buffer = (EvalBuffer.init 1).buffer :=
  C5_dead_end gC5 scorerC5 (EvalBuffer.init 1) 0 7 (by decide) (by decide)

/-! ### Claim C6 -/

/-- Bookkeeping of the redistribution loop of `force_eval`: the fold appends
one result per `(score, (leaf, owner))` pair in order and folds the strict
best-score update, touching nothing else. -/
theorem fe_step_foldl (g : GrammarTree) (l : List (ℚ × Nat × Nat)) :
    ∀ acc : EvalBuffer,
      (l.foldl (fe_step g) acc).results = acc.results ++ l.map (fun q => (q.1, q.2.1, q.2.2))
      ∧ (l.foldl (fe_step g) acc).calls = acc.calls
      ∧ (l.foldl (fe_step g) acc).score_history = acc.score_history
      ∧ (l.foldl (fe_step g) acc).buffer = acc.buffer
      ∧ (l.foldl (fe_step g) acc).buffer_size = acc.buffer_size
      ∧ (l.foldl (fe_step g) acc).best_score
          = (l.map Prod.fst).foldl (fun b sc => if sc > b then sc else b) acc.best_score
      ∧ ((l.foldl (fe_step g) acc).best_score, (l.foldl (fe_step g) acc).best_sentence)
          = l.foldl (fun bp q => if q.1 > bp.1 then (q.1, g.render q.2.1) else bp)
              (acc.best_score, acc.best_sentence) := by
  induction l with
  | nil =>
    intro acc
    exact ⟨by simp, rfl, rfl, rfl, rfl, rfl, rfl⟩
  | cons q l ih =>
    intro acc
    obtain ⟨h1, h2, h3, h4, h5, h6, h7⟩ := ih (fe_step g acc q)
    rw [List.foldl_cons]
    refine ⟨?_, h2, h3, h4, h5, ?_, ?_⟩
    · rw [h1]
      show (acc.results ++ [(q.1, q.2.1, q.2.2)]) ++ _ = _
      rw [List.append_assoc, List.map_cons, List.singleton_append]
    · rw [h6, List.map_cons, List.foldl_cons]
      exact rfl
    · rw [h7, List.foldl_cons]
      congr 1
      by_cases hc : q.1 > acc.best_score
      · simp only [fe_step, hc, if_pos hc, if_true]
      · simp only [fe_step, hc, if_neg hc, if_false]

/-- C6: on a non-empty pending buffer, `force_eval` invokes the scorer
exactly once with the rendered texts in buffer order, pairs the returned
scores positionally with the pending `(leaf, owner)` entries when appending
to `results`, appends all scores to `score_history`, updates the best score
by strict improvement, and clears the buffer; on an empty buffer it is a
no-op. -/
theorem C6_force_eval (g : GrammarTree) (scorer : List String → List ℚ) (eb : EvalBuffer)
    (h : eb.buffer ≠ []) :
    (force_eval g scorer eb).calls = eb.calls ++ [eb.buffer.map (fun p => g.render p.1)]
    ∧ (force_eval g scorer eb).results = eb.results
        ++ ((scorer (eb.buffer.map (fun p => g.render p.1))).zip eb.buffer).map
            (fun q => (q.1, q.2.1, q.2.2))
    ∧ (force_eval g scorer eb).score_history
        = eb.score_history ++ scorer (eb.buffer.map (fun p => g.render p.1))
    ∧ (force_eval g scorer eb).buffer = []
    ∧ (force_eval g scorer eb).best_score
        = (((scorer (eb.buffer.map (fun p => g.render p.1))).zip eb.buffer).map Prod.fst).foldl
            (fun b sc => if sc > b then sc else b) eb.best_score
    ∧ ((force_eval g scorer eb).best_score, (force_eval g scorer eb).best_sentence)
        = ((scorer (eb.buffer.map (fun p => g.render p.1))).zip eb.buffer).foldl
            (fun bp q => if q.1 > bp.1 then (q.1, g.render q.2.1) else bp)
            (eb.best_score, eb.best_sentence)
    ∧ (∀ eb2 : EvalBuffer, eb2.buffer = [] → force_eval g scorer eb2 = eb2) := by
  have hne : eb.buffer.isEmpty ≠ true := fun habs => h (List.isEmpty_iff.mp habs)
  have hnoop : ∀ eb2 : EvalBuffer, eb2.buffer = [] → force_eval g scorer eb2 = eb2 := by
    intro eb2 h2
    unfold force_eval
    rw [if_pos (List.isEmpty_iff.mpr h2)]
  have hbody : force_eval g scorer eb
      = { ((scorer (eb.buffer.map (fun p => g.render p.1))).zip eb.buffer).foldl (fe_step g)
            { eb with
              score_history := eb.score_history
                ++ scorer (eb.buffer.map (fun p => g.render p.1))
              calls := eb.calls ++ [eb.buffer.map (fun p => g.render p.1)] } with
          buffer := [] } := by
    unfold force_eval
    rw [if_neg hne]
  obtain ⟨f1, f2, f3, _, _, f6, f7⟩ :=
    fe_step_foldl g ((scorer (eb.buffer.map (fun p => g.render p.1))).zip eb.buffer)
      { eb with
        score_history := eb.score_history ++ scorer (eb.buffer.map (fun p => g.render p.1))
        calls := eb.calls ++ [eb.buffer.map (fun p => g.render p.1)] }
  rw [hbody]
  exact ⟨f2, f1, f3, rfl, f6, f7, hnoop⟩

/-- C6 witness at a concrete two-entry buffer. -/
theorem C6_force_eval_witness :
    (force_eval gC6 scorerC6 ebC6).calls
        = ebC6.calls ++ [ebC6.buffer.map (fun p => gC6.render p.1)]
    ∧ (force_eval gC6 scorerC6 ebC6).results = ebC6.results
        ++ ((scorerC6 (ebC6.buffer.map (fun p => gC6.render p.1))).zip ebC6.buffer).map
            (fun q => (q.1, q.2.1, q.2.2))
    ∧ (force_eval gC6 scorerC6 ebC6).score_history
        = ebC6.score_history ++ scorerC6 (ebC6.buffer.map (fun p => gC6.render p.1))
    ∧ (force_eval gC6 scorerC6 ebC6).buffer = []
    ∧ (force_eval gC6 scorerC6 ebC6).best_score
        = (((scorerC6 (ebC6.buffer.map (fun p => gC6.render p.1))).zip ebC6.buffer).map
            Prod.fst).foldl (fun b sc => if sc > b then sc else b) ebC6.best_score
    ∧ ((force_eval gC6 scorerC6 ebC6).best_score, (force_eval gC6 scorerC6 ebC6).best_sentence)
        = ((scorerC6 (ebC6.buffer.map (fun p => gC6.render p.1))).zip ebC6.buffer).foldl
            (fun bp q => if q.1 > bp.1 then (q.1, gC6.render q.2.1) else bp)
            (ebC6.best_score, ebC6.best_sentence)
    ∧ (∀ eb2 : EvalBuffer, eb2.buffer = [] → force_eval gC6 scorerC6 eb2 = eb2) :=
  C6_force_eval gC6 scorerC6 ebC6 (by decide)

/-! ### Claim C1 -/

/-- C1 (amended): when the `single_search` loop exits, the engine performs
one final forced flush of the evaluation buffer — and nothing else — before
returning: the returned state is the loop-exit state with `force_eval`
applied to its buffer.  In particular the node store is unchanged by the
final step, so the rewards produced by that flush are NOT backpropagated;
they remain in the `results` queue. -/
theorem C1_final_flush (g : GrammarTree) (scorer : List String → List ℚ) (simFuel : Nat)
    (rd : RessourceDistributor) (eb : EvalBuffer) (rootRef : Nat) (st' : SearchState)
    (h : single_search g scorer simFuel rd eb rootRef = some st') :
    ∃ sExit, singleSearchLoop g scorer simFuel (rd.ressources_to_consume + 1)
        { store := [mkCounterNode rootRef none], rd := rd, eb := eb
          counter_root := 0, current_depth := 1 } = some sExit
      ∧ st'.store = sExit.store
      ∧ st'.rd = sExit.rd
      ∧ st'.counter_root = sExit.counter_root
      ∧ st'.eb = force_eval g scorer sExit.eb := by
  simp only [single_search] at h
  rcases hl : singleSearchLoop g scorer simFuel (rd.ressources_to_consume + 1)
      { store := [mkCounterNode rootRef none], rd := rd, eb := eb
        counter_root := 0, current_depth := 1 } with _ | sExit
  · rw [hl] at h
    exact Option.noConfusion h
  · rw [hl, Option.map_some'] at h
    cases h
    exact ⟨sExit, rfl, rfl, rfl, rfl, rfl⟩

/-- C1 counterexample: budget 1, buffer size 2 on a root with one terminal
child.  The single tree walk buffers the leaf without scoring it; at loop
exit the final forced flush scores it (reward `5` appears in `score_history`
and in the `results` queue, and the run returns normally), but no
backpropagation pass follows: every node\'s `sum_rewards` is still `0` and
the result is left in the queue — the buffered leaf\'s reward is never
backpropagated into the search-node statistics. -/
theorem C1_cex :
    (single_search gC1 scorerC1 3 rdC1 (EvalBuffer.init 2) 0).isSome = true
    ∧ (getN ((single_search gC1 scorerC1 3 rdC1 (EvalBuffer.init 2) 0).get!).store 0).count = 1
    ∧ (getN ((single_search gC1 scorerC1 3 rdC1
        (EvalBuffer.init 2) 0).get!).store 0).sum_rewards = 0
    ∧ (getN ((single_search gC1 scorerC1 3 rdC1
        (EvalBuffer.init 2) 0).get!).store 1).sum_rewards = 0
    ∧ ((single_search gC1 scorerC1 3 rdC1 (EvalBuffer.init 2) 0).get!).eb.results
        = [((5 : ℚ), 1, 0)]
    ∧ ((single_search gC1 scorerC1 3 rdC1 (EvalBuffer.init 2) 0).get!).eb.score_history
        = [(5 : ℚ)] := by
  with_unfolding_all decide

/-- C1 witness for the amended theorem, at the concrete run of `C1_cex`. -/
theorem C1_final_flush_witness :
    ∃ sExit, singleSearchLoop gC1 scorerC1 3 (rdC1.ressources_to_consume + 1)
        { store := [mkCounterNode 0 none], rd := rdC1, eb := EvalBuffer.init 2
          counter_root := 0, current_depth := 1 } = some sExit
      ∧ ((single_search gC1 scorerC1 3 rdC1 (EvalBuffer.init 2) 0).get!).store = sExit.store
      ∧ ((single_search gC1 scorerC1 3 rdC1 (EvalBuffer.init 2) 0).get!).rd = sExit.rd
      ∧ ((single_search gC1 scorerC1 3 rdC1 (EvalBuffer.init 2) 0).get!).counter_root
          = sExit.counter_root
      ∧ ((single_search gC1 scorerC1 3 rdC1 (EvalBuffer.init 2) 0).get!).eb
          = force_eval gC1 scorerC1 sExit.eb :=
  C1_final_flush gC1 scorerC1 3 rdC1 (EvalBuffer.init 2) 0 _ (by with_unfolding_all rfl)

/-- C2 counterexample: a `UNIFORM` run (budget 6, per-depth quota 2) that
advances the root after two walks, freezing counter node `0` and moving the
logical root to its child, node `1`.  Two further walks start their
selection at node `1`, so at loop exit the child has `count = 3` while its
frozen parent still has `count = 2`: `parent.visit_count ≥ child.visit_count`
is violated at an observation point after a root advancement. -/
theorem C2_cex :
    (single_search gC2 scorerC2 4 rdC2 (EvalBuffer.init 10) 0).map
      (fun s => ((getN s.store 0).count, (getN s.store 1).count,
                 (getN s.store 1).parent, (getN s.store 0).children_)) =
    some (2, 3, some 0, some [1]) := by
  with_unfolding_all decide

/-- C2 witness for the amended theorem: one concrete `ALL_FROM_ROOT`
iteration from a fresh root. -/
theorem loopIter_invariants_witness :
    (GoodState ((loopIter gCW2 scorerC2 2 sCW2).get!)
      ∧ (∀ i < ((loopIter gCW2 scorerC2 2 sCW2).get!).store.length,
          ∀ c ∈ childIds ((loopIter gCW2 scorerC2 2 sCW2).get!).store i,
            (getN ((loopIter gCW2 scorerC2 2 sCW2).get!).store c).count
              ≤ (getN ((loopIter gCW2 scorerC2 2 sCW2).get!).store i).count)
      ∧ (∀ j, (getN sCW2.store j).count
          ≤ (getN ((loopIter gCW2 scorerC2 2 sCW2).get!).store j).count)
      ∧ ((loopIter gCW2 scorerC2 2 sCW2).get!).counter_root = sCW2.counter_root
      ∧ sCW2.store.length ≤ ((loopIter gCW2 scorerC2 2 sCW2).get!).store.length)
    ∧ ∀ (t t' : SearchState), loopIter gCW2 scorerC2 2 t = some t' →
        ∀ j, (getN t.store j).count ≤ (getN t'.store j).count :=
  loopIter_invariants gCW2 scorerC2 2 sCW2 _ (by with_unfolding_all decide)
    (by with_unfolding_all decide) (by with_unfolding_all rfl)

end Mcts
